import Mathlib

/-!
Verification of the skill-exchange matching engine.

This file gives a shallow embedding, in Lean 4, of the matching engine of the
skill-exchange platform (`app.py`, `models.py`): the database rows the engine
reads and writes (`Skill`, `Match`), the database state, the function
`find_matches_for_user`, and the `add_skill` route that triggers it.  Python
floats are modelled as exact rationals (`ℚ`); Python `round(x, 1)` is modelled
by `round1` below.  Skill and match rows are kept in insertion order, matching
the default query order of the backing store in the source.
-/

namespace SkillSwap

/-- A row of the `skills` table (`models.Skill`), restricted to the columns the
matching engine reads (`id` and `created_at` are never consulted by it). -/
structure Skill where
  user_id : Nat
  skill_name : String
  skill_type : String
  proficiency_level : String
  description : String
deriving DecidableEq

/-- A row of the `matches` table (`models.Match`), restricted to the columns the
matching engine writes (`id` and `created_at` are generated by the store). -/
structure Match where
  user1_id : Nat
  user2_id : Nat
  user1_offers : String
  user1_wants : String
  user2_offers : String
  user2_wants : String
  match_percentage : ℚ
  is_double_swap : Bool
  status : String
deriving DecidableEq

/-- The database state visible to the matching engine: the registered user ids,
the skill rows and the rows of the `matches` table (`match_rows` — `matches` is
a reserved word in Lean), each in insertion order. -/
structure DBState where
  users : List Nat
  skills : List Skill
  match_rows : List Match
deriving DecidableEq

/-- The three local accumulator variables of the per-candidate scoring loop in
`find_matches_for_user`: `match_score`, `total_possible`, `is_double`. -/
@[ext] structure ScoreAcc where
  match_score : Nat
  total_possible : Nat
  is_double : Bool
deriving DecidableEq

/-- Case-insensitive skill-name comparison:
`my_want.skill_name.lower() == their_offer.skill_name.lower()`.  Python's
`str.lower()` is modelled per character, exactly as `String.toLower` lowers
each character of the underlying character list. -/
def lowEq (a b : String) : Bool := a.data.map Char.toLower == b.data.map Char.toLower

/-- `Skill.query.filter_by(user_id=uid, skill_type=ty).all()`. -/
def skillsFor (s : DBState) (uid : Nat) (ty : String) : List Skill :=
  s.skills.filter (fun sk => sk.user_id == uid && sk.skill_type == ty)

/-- `User.query.get(user_id)` resolving to a row (`if not user: return`). -/
def userExists (s : DBState) (uid : Nat) : Bool := s.users.contains uid

/-- The first scoring loop of `find_matches_for_user`:
`for my_want in user_wants: total_possible += 1; for their_offer in
other_offers: if names match case-insensitively: match_score += 1`. -/
def wantLoop (user_wants other_offers : List Skill) (acc : ScoreAcc) : ScoreAcc :=
  user_wants.foldl (fun ac w =>
    other_offers.foldl (fun ac2 t =>
        if lowEq w.skill_name t.skill_name then
          { ac2 with match_score := ac2.match_score + 1 }
        else ac2)
      { ac with total_possible := ac.total_possible + 1 }) acc

/-- The second scoring loop of `find_matches_for_user`:
`for my_offer in user_offers: total_possible += 1; for their_want in
other_wants: if names match case-insensitively: match_score += 1;
is_double = True`. -/
def offerLoop (user_offers other_wants : List Skill) (acc : ScoreAcc) : ScoreAcc :=
  user_offers.foldl (fun ac o =>
    other_wants.foldl (fun ac2 t =>
        if lowEq o.skill_name t.skill_name then
          { ac2 with match_score := ac2.match_score + 1, is_double := true }
        else ac2)
      { ac with total_possible := ac.total_possible + 1 }) acc

/-- The full per-candidate scoring computation of `find_matches_for_user`:
both loops run from the zero-initialised accumulator. -/
def scoreFor (user_wants user_offers other_offers other_wants : List Skill) : ScoreAcc :=
  offerLoop user_offers other_wants
    (wantLoop user_wants other_offers
      { match_score := 0, total_possible := 0, is_double := false })

/-- Python `round(x, 1)` on exact rationals: round `10 * x` to an integer and
divide by ten.  (Python rounds literal halves to even on binary floats; the
choice of tie-breaking function is shared by the model of the code and every
statement below, so no claim depends on it.) -/
def round1 (q : ℚ) : ℚ := ((round (10 * q) : ℤ) : ℚ) / 10

/-- The display snapshot `', '.join([s.skill_name for s in skills][:3])`. -/
def skillSnapshot (sks : List Skill) : String :=
  String.intercalate ", " ((sks.map (fun sk => sk.skill_name)).take 3)

/-- The dedup predicate of the engine: the match row pairs users `a` and `b`
in either identity order. -/
def pairMatch (m : Match) (a b : Nat) : Bool :=
  (m.user1_id == a && m.user2_id == b) || (m.user1_id == b && m.user2_id == a)

/-- `Match.query.filter(((user1==a)&(user2==b)) | ((user1==b)&(user2==a))).first()`,
run against the session, which also sees rows added earlier in this run. -/
def existingMatch (ms : List Match) (a b : Nat) : Option Match :=
  ms.find? (fun m => pairMatch m a b)

/-- The `Match(...)` row constructed by `find_matches_for_user` for candidate
`other_id`: triggering user as `user1`, candidate as `user2`, snapshot strings,
`round(match_percentage, 1)` and the double-swap flag. -/
def recordFor (s : DBState) (user_id : Nat) (user_offers user_wants : List Skill)
    (other_id : Nat) : Match :=
  let other_offers := skillsFor s other_id "offer"
  let other_wants := skillsFor s other_id "want"
  let acc := scoreFor user_wants user_offers other_offers other_wants
  { user1_id := user_id
    user2_id := other_id
    user1_offers := skillSnapshot user_offers
    user1_wants := skillSnapshot user_wants
    user2_offers := skillSnapshot other_offers
    user2_wants := skillSnapshot other_wants
    match_percentage := round1 ((acc.match_score : ℚ) / (acc.total_possible : ℚ) * 100)
    is_double_swap := acc.is_double
    status := "pending" }

/-- The body of the candidate loop of `find_matches_for_user`: score the
candidate; if `match_score > 0 and total_possible > 0`, look up an existing
match row for the unordered pair and, when none exists, append the new row. -/
def processCandidate (s : DBState) (user_id : Nat) (user_offers user_wants : List Skill)
    (ms : List Match) (other_id : Nat) : List Match :=
  let other_offers := skillsFor s other_id "offer"
  let other_wants := skillsFor s other_id "want"
  let acc := scoreFor user_wants user_offers other_offers other_wants
  if 0 < acc.match_score ∧ 0 < acc.total_possible then
    if existingMatch ms user_id other_id = none then
      ms ++ [recordFor s user_id user_offers user_wants other_id]
    else ms
  else ms

/-- `find_matches_for_user(user_id)` from `app.py`: silently return when the
user does not resolve; otherwise load the user's skill lists, iterate every
other user, and accumulate new match rows. -/
def find_matches_for_user (s : DBState) (user_id : Nat) : DBState :=
  if userExists s user_id then
    let user_offers := skillsFor s user_id "offer"
    let user_wants := skillsFor s user_id "want"
    let all_users := s.users.filter (fun u => u != user_id)
    { s with match_rows :=
        all_users.foldl (processCandidate s user_id user_offers user_wants) s.match_rows }
  else s

/-- The `add_skill` route: reject an invalid skill type without inserting;
otherwise insert the skill row and, when the type is `offer`, run the matcher
for the current user. -/
def add_skill (s : DBState) (uid : Nat) (name ty prof desc : String) : DBState :=
  if ty ≠ "offer" ∧ ty ≠ "want" then s
  else
    let s2 : DBState := { s with skills := s.skills ++ [⟨uid, name, ty, prof, desc⟩] }
    if ty = "offer" then find_matches_for_user s2 uid else s2

/-- The operations that drive the matching subsystem: adding a skill (which
may trigger the matcher) and a direct matcher invocation. -/
inductive Op where
  | addSkill (uid : Nat) (skill_name skill_type proficiency description : String)
  | runMatcher (uid : Nat)

/-- Apply one operation to the database state. -/
def applyOp (s : DBState) : Op → DBState
  | Op.addSkill uid n t p d => add_skill s uid n t p d
  | Op.runMatcher uid => find_matches_for_user s uid

/-- Apply a sequence of operations to the database state. -/
def runOps (s : DBState) (ops : List Op) : DBState := ops.foldl applyOp s

/-- The match rows stored for the unordered pair `{a, b}`. -/
def matchesFor (ms : List Match) (a b : Nat) : List Match :=
  ms.filter (fun m => pairMatch m a b)

/-- At most one match row per unordered pair of user identities. -/
def pairUnique (ms : List Match) : Prop :=
  ∀ a b : Nat, (matchesFor ms a b).length ≤ 1

/-- The number of case-insensitively equal `(x, y)` pairs with `x ∈ xs` and
`y ∈ ys` — the many-to-many count accumulated by the scoring loops. -/
def pairCountCI (xs ys : List Skill) : Nat :=
  (xs.map (fun x => ys.countP (fun y => lowEq x.skill_name y.skill_name))).sum

/-- The skill names of `l` are pairwise distinct case-insensitively. -/
def namesNodupCI (l : List Skill) : Prop :=
  (l.map (fun sk => sk.skill_name.data.map Char.toLower)).Nodup

instance namesNodupCI_decidable (l : List Skill) : Decidable (namesNodupCI l) := by
  unfold namesNodupCI
  exact List.nodupDecidable _

/-! ### Characterisation of the scoring loops -/

lemma lowEq_comm (a b : String) : lowEq a b = lowEq b a := by
  unfold lowEq
  by_cases h : a.data.map Char.toLower = b.data.map Char.toLower
  · rw [h]
  · rw [beq_eq_false_iff_ne.mpr h, beq_eq_false_iff_ne.mpr (Ne.symm h)]

lemma pairCountCI_nil (ys : List Skill) : pairCountCI [] ys = 0 := rfl

lemma pairCountCI_cons (x : Skill) (xs ys : List Skill) :
    pairCountCI (x :: xs) ys
      = ys.countP (fun y => lowEq x.skill_name y.skill_name) + pairCountCI xs ys := by
  simp [pairCountCI]

lemma pairCountCI_nil_right (xs : List Skill) : pairCountCI xs [] = 0 := by
  induction xs with
  | nil => rfl
  | cons x xs ih => simp [pairCountCI_cons, ih]

lemma pairCountCI_cons_right (xs : List Skill) (y : Skill) (ys : List Skill) :
    pairCountCI xs (y :: ys)
      = pairCountCI xs ys + xs.countP (fun x => lowEq x.skill_name y.skill_name) := by
  induction xs with
  | nil => simp [pairCountCI_nil]
  | cons x xs ih =>
    rw [pairCountCI_cons, List.countP_cons, ih, pairCountCI_cons, List.countP_cons]
    cases h : lowEq x.skill_name y.skill_name <;> simp [h] <;> omega

lemma pairCountCI_comm (xs ys : List Skill) : pairCountCI xs ys = pairCountCI ys xs := by
  induction ys with
  | nil => simp [pairCountCI_nil_right, pairCountCI_nil]
  | cons y ys ih =>
    rw [pairCountCI_cons_right, ih, pairCountCI_cons]
    have hc : xs.countP (fun x => lowEq x.skill_name y.skill_name)
        = xs.countP (fun x => lowEq y.skill_name x.skill_name) :=
      List.countP_congr (fun x _ => by rw [lowEq_comm])
    omega

lemma pairCountCI_pos {xs ys : List Skill} {x y : Skill} (hx : x ∈ xs) (hy : y ∈ ys)
    (h : lowEq x.skill_name y.skill_name = true) : 0 < pairCountCI xs ys := by
  induction xs with
  | nil => cases hx
  | cons a xs ih =>
    rw [pairCountCI_cons]
    rcases List.mem_cons.mp hx with rfl | hx2
    · have hp : 0 < ys.countP (fun t => lowEq x.skill_name t.skill_name) :=
        List.countP_pos_iff.mpr ⟨y, hy, h⟩
      omega
    · have := ih hx2
      omega

lemma length_pos_of_pairCountCI_pos {xs ys : List Skill} (h : 0 < pairCountCI xs ys) :
    0 < xs.length := by
  cases xs with
  | nil => rw [pairCountCI_nil] at h; omega
  | cons a l => simp

lemma countP_lowEq_le_one {ys : List Skill} (h : namesNodupCI ys) (nm : String) :
    ys.countP (fun y => lowEq nm y.skill_name) ≤ 1 := by
  induction ys with
  | nil => simp
  | cons y ys ih =>
    rw [List.countP_cons]
    rw [namesNodupCI, List.map_cons, List.nodup_cons] at h
    by_cases hy : lowEq nm y.skill_name = true
    · have h0 : ys.countP (fun t => lowEq nm t.skill_name) = 0 := by
        rw [List.countP_eq_zero]
        intro t ht hc
        apply h.1
        rw [List.mem_map]
        refine ⟨t, ht, ?_⟩
        have h1 := (beq_iff_eq (a := nm.data.map Char.toLower)).mp hy
        have h2 := (beq_iff_eq (a := nm.data.map Char.toLower)).mp hc
        rw [← h2, h1]
      rw [h0]
      simp [hy]
    · have := ih h.2
      simp [hy]
      omega

lemma pairCountCI_le_length {xs ys : List Skill} (h : namesNodupCI ys) :
    pairCountCI xs ys ≤ xs.length := by
  induction xs with
  | nil => simp [pairCountCI_nil]
  | cons x xs ih =>
    rw [pairCountCI_cons, List.length_cons]
    have := countP_lowEq_le_one h x.skill_name
    omega

lemma foldl_score_bump (nm : String) (ys : List Skill) (a : ScoreAcc) :
    (ys.foldl (fun ac2 t =>
        if lowEq nm t.skill_name then { ac2 with match_score := ac2.match_score + 1 }
        else ac2) a)
      = { a with match_score := a.match_score + ys.countP (fun t => lowEq nm t.skill_name) } := by
  induction ys generalizing a with
  | nil => simp
  | cons y ys ih =>
    rw [List.foldl_cons, List.countP_cons]
    by_cases h : lowEq nm y.skill_name = true
    · rw [if_pos h, ih]
      ext <;> simp [h] <;> try omega
    · rw [if_neg h, ih]
      ext <;> simp [h]

lemma foldl_score_double_bump (nm : String) (ys : List Skill) (a : ScoreAcc) :
    (ys.foldl (fun ac2 t =>
        if lowEq nm t.skill_name then
          { ac2 with match_score := ac2.match_score + 1, is_double := true }
        else ac2) a)
      = { a with match_score := a.match_score + ys.countP (fun t => lowEq nm t.skill_name),
                 is_double := a.is_double || ys.any (fun t => lowEq nm t.skill_name) } := by
  induction ys generalizing a with
  | nil => simp
  | cons y ys ih =>
    rw [List.foldl_cons, List.countP_cons]
    by_cases h : lowEq nm y.skill_name = true
    · rw [if_pos h, ih]
      ext <;> simp [h] <;> try omega
    · rw [if_neg h, ih]
      ext <;> simp [h]

lemma wantLoop_eq (uw oo : List Skill) (a : ScoreAcc) :
    wantLoop uw oo a
      = { a with match_score := a.match_score + pairCountCI uw oo,
                 total_possible := a.total_possible + uw.length } := by
  induction uw generalizing a with
  | nil => simp [wantLoop, pairCountCI_nil]
  | cons w uw ih =>
    have h1 : wantLoop (w :: uw) oo a
        = wantLoop uw oo (oo.foldl (fun ac2 t =>
            if lowEq w.skill_name t.skill_name then
              { ac2 with match_score := ac2.match_score + 1 }
            else ac2) { a with total_possible := a.total_possible + 1 }) := by
      simp only [wantLoop, List.foldl_cons]
    rw [h1, foldl_score_bump, ih, pairCountCI_cons]
    ext <;> simp <;> try omega

lemma offerLoop_eq (uo ow : List Skill) (a : ScoreAcc) :
    offerLoop uo ow a
      = { a with match_score := a.match_score + pairCountCI uo ow,
                 total_possible := a.total_possible + uo.length,
                 is_double := a.is_double
                   || uo.any (fun o => ow.any (fun t => lowEq o.skill_name t.skill_name)) } := by
  induction uo generalizing a with
  | nil => simp [offerLoop, pairCountCI_nil]
  | cons o uo ih =>
    have h1 : offerLoop (o :: uo) ow a
        = offerLoop uo ow (ow.foldl (fun ac2 t =>
            if lowEq o.skill_name t.skill_name then
              { ac2 with match_score := ac2.match_score + 1, is_double := true }
            else ac2) { a with total_possible := a.total_possible + 1 }) := by
      simp only [offerLoop, List.foldl_cons]
    rw [h1, foldl_score_double_bump, ih, pairCountCI_cons]
    ext <;> simp [Bool.or_assoc] <;> try omega

lemma scoreFor_match_score (uw uo oo ow : List Skill) :
    (scoreFor uw uo oo ow).match_score = pairCountCI uw oo + pairCountCI uo ow := by
  simp [scoreFor, wantLoop_eq, offerLoop_eq]

lemma scoreFor_total_possible (uw uo oo ow : List Skill) :
    (scoreFor uw uo oo ow).total_possible = uw.length + uo.length := by
  simp [scoreFor, wantLoop_eq, offerLoop_eq]

lemma scoreFor_is_double (uw uo oo ow : List Skill) :
    (scoreFor uw uo oo ow).is_double
      = uo.any (fun o => ow.any (fun t => lowEq o.skill_name t.skill_name)) := by
  simp [scoreFor, wantLoop_eq, offerLoop_eq]

/-! ### Rounding lemmas -/

lemma round1_nonneg {q : ℚ} (h : 0 ≤ q) : 0 ≤ round1 q := by
  rw [round1]
  have h1 : 0 ≤ round (10 * q) := by
    rw [round_eq, Int.floor_nonneg]
    linarith
  have h2 : (0 : ℚ) ≤ ((round (10 * q) : ℤ) : ℚ) := by exact_mod_cast h1
  exact div_nonneg h2 (by norm_num)

lemma round1_le_100 {q : ℚ} (h : q ≤ 100) : round1 q ≤ 100 := by
  rw [round1]
  have h1 : round (10 * q) ≤ 1000 := by
    rw [round_eq]
    have hlt : (10 * q + 1 / 2 : ℚ) < ((1001 : ℤ) : ℚ) := by push_cast; linarith
    have := Int.floor_lt.mpr hlt
    omega
  have h2 : ((round (10 * q) : ℤ) : ℚ) ≤ 1000 := by exact_mod_cast h1
  linarith

lemma round1_eq_intCast_div {q : ℚ} {n : ℤ} (h : 10 * q = (n : ℚ)) :
    round1 q = (n : ℚ) / 10 := by
  rw [round1, h, round_intCast]

/-! ### Structure of the candidate loop -/

lemma pairMatch_comm (m : Match) (a b : Nat) : pairMatch m a b = pairMatch m b a := by
  simp [pairMatch, Bool.or_comm]

lemma pairMatch_iff {m : Match} {a b : Nat} :
    pairMatch m a b = true
      ↔ (m.user1_id = a ∧ m.user2_id = b) ∨ (m.user1_id = b ∧ m.user2_id = a) := by
  simp [pairMatch]

lemma recordFor_user1 (s : DBState) (uid : Nat) (uo uw : List Skill) (o : Nat) :
    (recordFor s uid uo uw o).user1_id = uid := rfl

lemma recordFor_user2 (s : DBState) (uid : Nat) (uo uw : List Skill) (o : Nat) :
    (recordFor s uid uo uw o).user2_id = o := rfl

lemma recordFor_pct (s : DBState) (uid : Nat) (uo uw : List Skill) (o : Nat) :
    (recordFor s uid uo uw o).match_percentage
      = round1 (((scoreFor uw uo (skillsFor s o "offer") (skillsFor s o "want")).match_score : ℚ)
          / ((scoreFor uw uo (skillsFor s o "offer") (skillsFor s o "want")).total_possible : ℚ)
          * 100) := rfl

lemma recordFor_double (s : DBState) (uid : Nat) (uo uw : List Skill) (o : Nat) :
    (recordFor s uid uo uw o).is_double_swap
      = (scoreFor uw uo (skillsFor s o "offer") (skillsFor s o "want")).is_double := rfl

lemma pairMatch_recordFor {s : DBState} {uid : Nat} {uo uw : List Skill} {o a b : Nat} :
    pairMatch (recordFor s uid uo uw o) a b = true
      ↔ (uid = a ∧ o = b) ∨ (uid = b ∧ o = a) := by
  rw [pairMatch_iff, recordFor_user1, recordFor_user2]

lemma matchesFor_append (l1 l2 : List Match) (a b : Nat) :
    matchesFor (l1 ++ l2) a b = matchesFor l1 a b ++ matchesFor l2 a b := by
  simp [matchesFor, List.filter_append]

lemma matchesFor_comm (ms : List Match) (a b : Nat) :
    matchesFor ms a b = matchesFor ms b a := by
  unfold matchesFor
  apply List.filter_congr
  intro m _
  rw [pairMatch_comm]

lemma existingMatch_eq_none {ms : List Match} {a b : Nat} :
    existingMatch ms a b = none ↔ ∀ m ∈ ms, pairMatch m a b = false := by
  rw [existingMatch, List.find?_eq_none]
  constructor
  · intro h m hm
    have := h m hm
    simpa using this
  · intro h m hm
    simp [h m hm]

lemma matchesFor_eq_nil_of_existingMatch_none {ms : List Match} {a b : Nat}
    (h : existingMatch ms a b = none) : matchesFor ms a b = [] := by
  rw [matchesFor, List.filter_eq_nil_iff]
  intro m hm
  simp [existingMatch_eq_none.mp h m hm]

lemma processCandidate_eq (s : DBState) (uid : Nat) (uo uw : List Skill)
    (ms : List Match) (o : Nat) :
    processCandidate s uid uo uw ms o = ms
    ∨ (processCandidate s uid uo uw ms o = ms ++ [recordFor s uid uo uw o]
        ∧ existingMatch ms uid o = none
        ∧ 0 < (scoreFor uw uo (skillsFor s o "offer") (skillsFor s o "want")).match_score
        ∧ 0 < (scoreFor uw uo (skillsFor s o "offer") (skillsFor s o "want")).total_possible) := by
  simp only [processCandidate]
  by_cases h1 : 0 < (scoreFor uw uo (skillsFor s o "offer") (skillsFor s o "want")).match_score
      ∧ 0 < (scoreFor uw uo (skillsFor s o "offer") (skillsFor s o "want")).total_possible
  · rw [if_pos h1]
    by_cases h2 : existingMatch ms uid o = none
    · right
      exact ⟨by rw [if_pos h2], h2, h1.1, h1.2⟩
    · left
      rw [if_neg h2]
  · left
    rw [if_neg h1]

lemma processCandidate_of_none (s : DBState) (uid : Nat) (uo uw : List Skill)
    (ms : List Match) (o : Nat)
    (hnone : existingMatch ms uid o = none)
    (hs : 0 < (scoreFor uw uo (skillsFor s o "offer") (skillsFor s o "want")).match_score)
    (ht : 0 < (scoreFor uw uo (skillsFor s o "offer") (skillsFor s o "want")).total_possible) :
    processCandidate s uid uo uw ms o = ms ++ [recordFor s uid uo uw o] := by
  simp only [processCandidate]
  rw [if_pos ⟨hs, ht⟩, if_pos hnone]

lemma foldl_processCandidate_decomp (s : DBState) (uid : Nat) (uo uw : List Skill)
    (l : List Nat) (ms : List Match) :
    ∃ new : List Match,
      l.foldl (processCandidate s uid uo uw) ms = ms ++ new
      ∧ ∀ r ∈ new, ∃ o ∈ l, r = recordFor s uid uo uw o
          ∧ 0 < (scoreFor uw uo (skillsFor s o "offer") (skillsFor s o "want")).match_score
          ∧ 0 < (scoreFor uw uo (skillsFor s o "offer") (skillsFor s o "want")).total_possible := by
  induction l generalizing ms with
  | nil => exact ⟨[], by simp, by simp⟩
  | cons x l ih =>
    rw [List.foldl_cons]
    rcases processCandidate_eq s uid uo uw ms x with h | ⟨h, _, hs, ht⟩
    · rw [h]
      rcases ih ms with ⟨new, heq, hprop⟩
      refine ⟨new, heq, fun r hr => ?_⟩
      rcases hprop r hr with ⟨o, ho, rest⟩
      exact ⟨o, List.mem_cons_of_mem _ ho, rest⟩
    · rw [h]
      rcases ih (ms ++ [recordFor s uid uo uw x]) with ⟨new, heq, hprop⟩
      refine ⟨recordFor s uid uo uw x :: new, ?_, ?_⟩
      · rw [heq, List.append_assoc, List.singleton_append]
      · intro r hr
        rcases List.mem_cons.mp hr with rfl | hr2
        · exact ⟨x, List.mem_cons_self x l, rfl, hs, ht⟩
        · rcases hprop r hr2 with ⟨o, ho, rest⟩
          exact ⟨o, List.mem_cons_of_mem _ ho, rest⟩

lemma matchesFor_processCandidate_le (s : DBState) (uid : Nat) (uo uw : List Skill)
    (ms : List Match) (o a b : Nat)
    (h : (matchesFor ms a b).length ≤ 1) :
    (matchesFor (processCandidate s uid uo uw ms o) a b).length ≤ 1 := by
  rcases processCandidate_eq s uid uo uw ms o with heq | ⟨heq, hnone, -, -⟩
  · rw [heq]
    exact h
  · rw [heq, matchesFor_append]
    by_cases hp : pairMatch (recordFor s uid uo uw o) a b = true
    · have hnil : matchesFor ms uid o = [] := matchesFor_eq_nil_of_existingMatch_none hnone
      have hab : matchesFor ms a b = [] := by
        rcases pairMatch_recordFor.mp hp with ⟨rfl, rfl⟩ | ⟨rfl, rfl⟩
        · exact hnil
        · rw [matchesFor_comm]
          exact hnil
      rw [hab, List.nil_append]
      calc (matchesFor [recordFor s uid uo uw o] a b).length
          ≤ [recordFor s uid uo uw o].length := List.length_filter_le _ _
        _ = 1 := rfl
    · have hnil2 : matchesFor [recordFor s uid uo uw o] a b = [] := by
        rw [matchesFor, List.filter_eq_nil_iff]
        intro r hr
        rcases List.mem_singleton.mp hr with rfl
        simp [hp]
      rw [hnil2, List.append_nil]
      exact h

lemma matchesFor_foldl_le (s : DBState) (uid : Nat) (uo uw : List Skill)
    (l : List Nat) (ms : List Match) (a b : Nat)
    (h : (matchesFor ms a b).length ≤ 1) :
    (matchesFor (l.foldl (processCandidate s uid uo uw) ms) a b).length ≤ 1 := by
  induction l generalizing ms with
  | nil => exact h
  | cons x l ih =>
    rw [List.foldl_cons]
    exact ih _ (matchesFor_processCandidate_le s uid uo uw ms x a b h)

lemma matchesFor_processCandidate_frozen (s : DBState) (uid : Nat) (uo uw : List Skill)
    (ms : List Match) (o a b : Nat)
    (h : matchesFor ms a b ≠ []) :
    matchesFor (processCandidate s uid uo uw ms o) a b = matchesFor ms a b := by
  rcases processCandidate_eq s uid uo uw ms o with heq | ⟨heq, hnone, -, -⟩
  · rw [heq]
  · rw [heq, matchesFor_append]
    have hp : pairMatch (recordFor s uid uo uw o) a b = false := by
      rw [Bool.eq_false_iff]
      intro hc
      have hnil : matchesFor ms uid o = [] := matchesFor_eq_nil_of_existingMatch_none hnone
      rcases pairMatch_recordFor.mp hc with ⟨rfl, rfl⟩ | ⟨rfl, rfl⟩
      · exact h hnil
      · exact h (by rw [matchesFor_comm]; exact hnil)
    have hnil2 : matchesFor [recordFor s uid uo uw o] a b = [] := by
      rw [matchesFor, List.filter_eq_nil_iff]
      intro r hr
      rcases List.mem_singleton.mp hr with rfl
      simp [hp]
    rw [hnil2, List.append_nil]

lemma matchesFor_foldl_frozen (s : DBState) (uid : Nat) (uo uw : List Skill)
    (l : List Nat) (ms : List Match) (a b : Nat)
    (h : matchesFor ms a b ≠ []) :
    matchesFor (l.foldl (processCandidate s uid uo uw) ms) a b = matchesFor ms a b := by
  induction l generalizing ms with
  | nil => rfl
  | cons x l ih =>
    rw [List.foldl_cons]
    have hstep := matchesFor_processCandidate_frozen s uid uo uw ms x a b h
    rw [ih _ (by rw [hstep]; exact h), hstep]

lemma one_le_matchesFor_foldl (s : DBState) (uid : Nat) (uo uw : List Skill)
    (l : List Nat) (ms : List Match) {b : Nat} (hb : b ∈ l)
    (hs : 0 < (scoreFor uw uo (skillsFor s b "offer") (skillsFor s b "want")).match_score)
    (ht : 0 < (scoreFor uw uo (skillsFor s b "offer") (skillsFor s b "want")).total_possible) :
    1 ≤ (matchesFor (l.foldl (processCandidate s uid uo uw) ms) uid b).length := by
  induction l generalizing ms with
  | nil => cases hb
  | cons x l ih =>
    rw [List.foldl_cons]
    by_cases hxb : b ∈ l
    · exact ih _ hxb
    · have hbx : b = x := by
        rcases List.mem_cons.mp hb with h | h
        · exact h
        · exact absurd h hxb
      subst hbx
      have hstep : 1 ≤ (matchesFor (processCandidate s uid uo uw ms b) uid b).length := by
        by_cases hnone : existingMatch ms uid b = none
        · rw [processCandidate_of_none s uid uo uw ms b hnone hs ht, matchesFor_append]
          have hp : pairMatch (recordFor s uid uo uw b) uid b = true :=
            pairMatch_recordFor.mpr (Or.inl ⟨rfl, rfl⟩)
          have : matchesFor [recordFor s uid uo uw b] uid b = [recordFor s uid uo uw b] := by
            simp [matchesFor, hp]
          rw [this, List.length_append, List.length_singleton]
          omega
        · rcases Option.ne_none_iff_exists'.mp hnone with ⟨m, hm⟩
          rw [existingMatch] at hm
          have hmem : m ∈ ms := List.mem_of_find?_eq_some hm
          have hpm := List.find?_some hm
          have hmem2 : m ∈ matchesFor ms uid b := List.mem_filter.mpr ⟨hmem, hpm⟩
          have h1 : 0 < (matchesFor ms uid b).length := List.length_pos_of_mem hmem2
          rcases processCandidate_eq s uid uo uw ms b with heq | ⟨heq, hn, -, -⟩
          · rw [heq]
            omega
          · exact absurd hn hnone
      rcases foldl_processCandidate_decomp s uid uo uw l
          (processCandidate s uid uo uw ms b) with ⟨new, heq, -⟩
      rw [heq, matchesFor_append, List.length_append]
      omega

/-! ### The matcher at the state level -/

lemma find_matches_rows_of_mem {s : DBState} {uid : Nat} (h : uid ∈ s.users) :
    (find_matches_for_user s uid).match_rows
      = (s.users.filter (fun u => u != uid)).foldl
          (processCandidate s uid (skillsFor s uid "offer") (skillsFor s uid "want"))
          s.match_rows := by
  have hb : userExists s uid = true := List.elem_iff.mpr h
  simp only [find_matches_for_user]
  rw [if_pos hb]

lemma find_matches_eq_of_not_mem {s : DBState} {uid : Nat} (h : uid ∉ s.users) :
    find_matches_for_user s uid = s := by
  have hb : ¬ userExists s uid = true := by
    intro hc
    exact h (List.elem_iff.mp hc)
  simp only [find_matches_for_user]
  rw [if_neg hb]

lemma find_matches_users (s : DBState) (uid : Nat) :
    (find_matches_for_user s uid).users = s.users := by
  simp only [find_matches_for_user]
  split <;> rfl

lemma find_matches_skills (s : DBState) (uid : Nat) :
    (find_matches_for_user s uid).skills = s.skills := by
  simp only [find_matches_for_user]
  split <;> rfl

/-- Every row the matcher adds is the record for some candidate `o ≠ uid` in
the user pool, created only when its score and total are positive. -/
lemma new_record_spec {s : DBState} {uid : Nat} {m : Match}
    (hm : m ∈ (find_matches_for_user s uid).match_rows) (hnew : m ∉ s.match_rows) :
    ∃ o ∈ s.users, o ≠ uid
      ∧ m = recordFor s uid (skillsFor s uid "offer") (skillsFor s uid "want") o
      ∧ 0 < (scoreFor (skillsFor s uid "want") (skillsFor s uid "offer")
              (skillsFor s o "offer") (skillsFor s o "want")).match_score
      ∧ 0 < (scoreFor (skillsFor s uid "want") (skillsFor s uid "offer")
              (skillsFor s o "offer") (skillsFor s o "want")).total_possible := by
  by_cases hu : uid ∈ s.users
  · rw [find_matches_rows_of_mem hu] at hm
    rcases foldl_processCandidate_decomp s uid (skillsFor s uid "offer")
        (skillsFor s uid "want") (s.users.filter (fun u => u != uid))
        s.match_rows with ⟨new, heq, hprop⟩
    rw [heq] at hm
    rcases List.mem_append.mp hm with h | h
    · exact absurd h hnew
    · rcases hprop m h with ⟨o, ho, hrec, hs, ht⟩
      rcases List.mem_filter.mp ho with ⟨homem, hone⟩
      exact ⟨o, homem, by simpa using hone, hrec, hs, ht⟩
  · rw [find_matches_eq_of_not_mem hu] at hm
    exact absurd hm hnew

/-! ### The operation level -/

lemma runOps_cons (s : DBState) (op : Op) (ops : List Op) :
    runOps s (op :: ops) = runOps (applyOp s op) ops := rfl

/-- Applying one operation either leaves the match rows unchanged or runs the
candidate loop of the matcher from the current rows (for a state with the same
rows). -/
lemma applyOp_rows_cases (s : DBState) (op : Op) :
    (applyOp s op).match_rows = s.match_rows
    ∨ ∃ (s2 : DBState) (uid : Nat), s2.match_rows = s.match_rows
        ∧ (applyOp s op).match_rows
          = (s2.users.filter (fun u => u != uid)).foldl
              (processCandidate s2 uid (skillsFor s2 uid "offer") (skillsFor s2 uid "want"))
              s2.match_rows := by
  cases op with
  | runMatcher uid =>
    by_cases hu : uid ∈ s.users
    · exact Or.inr ⟨s, uid, rfl, find_matches_rows_of_mem hu⟩
    · left
      show (find_matches_for_user s uid).match_rows = s.match_rows
      rw [find_matches_eq_of_not_mem hu]
  | addSkill uid n t p d =>
    simp only [applyOp, add_skill]
    split_ifs with h1 h2
    · left
      rfl
    · by_cases hu : uid ∈ ({ s with skills := s.skills ++ [⟨uid, n, t, p, d⟩] } : DBState).users
      · exact Or.inr ⟨{ s with skills := s.skills ++ [⟨uid, n, t, p, d⟩] }, uid, rfl,
          find_matches_rows_of_mem hu⟩
      · left
        rw [find_matches_eq_of_not_mem hu]
    · left
      rfl

lemma matchesFor_applyOp_frozen (s : DBState) (op : Op) (a b : Nat)
    (h : matchesFor s.match_rows a b ≠ []) :
    matchesFor (applyOp s op).match_rows a b = matchesFor s.match_rows a b := by
  rcases applyOp_rows_cases s op with heq | ⟨s2, uid, hrows, heq⟩
  · rw [heq]
  · rw [heq]
    have h2 : matchesFor s2.match_rows a b ≠ [] := by
      rw [hrows]
      exact h
    rw [matchesFor_foldl_frozen s2 uid _ _ _ _ a b h2, hrows]

lemma matchesFor_runOps_frozen (s : DBState) (ops : List Op) (a b : Nat)
    (h : matchesFor s.match_rows a b ≠ []) :
    matchesFor (runOps s ops).match_rows a b = matchesFor s.match_rows a b := by
  induction ops generalizing s with
  | nil => rfl
  | cons op ops ih =>
    rw [runOps_cons]
    have hstep := matchesFor_applyOp_frozen s op a b h
    rw [ih (applyOp s op) (by rw [hstep]; exact h), hstep]

lemma matchesFor_applyOp_le (s : DBState) (op : Op) (a b : Nat)
    (h : (matchesFor s.match_rows a b).length ≤ 1) :
    (matchesFor (applyOp s op).match_rows a b).length ≤ 1 := by
  rcases applyOp_rows_cases s op with heq | ⟨s2, uid, hrows, heq⟩
  · rw [heq]
    exact h
  · rw [heq]
    refine matchesFor_foldl_le s2 uid _ _ _ _ a b ?_
    rw [hrows]
    exact h

lemma pairUnique_runOps (s : DBState) (ops : List Op) (h : pairUnique s.match_rows) :
    pairUnique (runOps s ops).match_rows := by
  induction ops generalizing s with
  | nil => exact h
  | cons op ops ih =>
    rw [runOps_cons]
    exact ih (applyOp s op) (fun a b => matchesFor_applyOp_le s op a b (h a b))

lemma user_ne_runOps (ops : List Op) (s : DBState)
    (h : ∀ m ∈ s.match_rows, m.user1_id ≠ m.user2_id) :
    ∀ m ∈ (runOps s ops).match_rows, m.user1_id ≠ m.user2_id := by
  induction ops generalizing s with
  | nil => exact h
  | cons op ops ih =>
    rw [runOps_cons]
    refine ih (applyOp s op) ?_
    intro m2 hm2
    rcases applyOp_rows_cases s op with heq | ⟨s2, uid2, hrows, heq⟩
    · rw [heq] at hm2
      exact h m2 hm2
    · rw [heq] at hm2
      rcases foldl_processCandidate_decomp s2 uid2 (skillsFor s2 uid2 "offer")
          (skillsFor s2 uid2 "want") (s2.users.filter (fun u => u != uid2))
          s2.match_rows with ⟨new, heq2, hprop⟩
      rw [heq2] at hm2
      rcases List.mem_append.mp hm2 with h2 | h2
      · rw [hrows] at h2
        exact h m2 h2
      · rcases hprop m2 h2 with ⟨o, ho, hrec, -, -⟩
        rcases List.mem_filter.mp ho with ⟨-, hone⟩
        subst hrec
        rw [recordFor_user1, recordFor_user2]
        have hne : o ≠ uid2 := by simpa using hone
        exact fun hc => hne hc.symm

/-! ### Concrete states used by witnesses and counterexamples -/

/-- Two users; user 1 wants "Guitar", user 2 offers "guitar" (the spec's
Scenario 1). -/
def sGuitar : DBState :=
  { users := [1, 2],
    skills := [⟨1, "Guitar", "want", "", ""⟩, ⟨2, "guitar", "offer", "", ""⟩],
    match_rows := [] }

/-- The record the matcher creates in `sGuitar` when user 2 triggers. -/
def mGuitar : Match :=
  recordFor sGuitar 2 (skillsFor sGuitar 2 "offer") (skillsFor sGuitar 2 "want") 1

/-- Two users with asymmetric list sizes: user 1 wants "x" and offers "y";
user 2 offers "x" and wants nothing. -/
def sAsym : DBState :=
  { users := [1, 2],
    skills := [⟨1, "x", "want", "", ""⟩, ⟨1, "y", "offer", "", ""⟩, ⟨2, "x", "offer", "", ""⟩],
    match_rows := [] }

/-- Two users; user 1 wants "x"; user 2 has two identically-named offers of
"x". -/
def sDup : DBState :=
  { users := [1, 2],
    skills := [⟨1, "x", "want", "", ""⟩, ⟨2, "x", "offer", "", ""⟩, ⟨2, "x", "offer", "", ""⟩],
    match_rows := [] }

/-- Two users and no skills at all. -/
def sEmpty : DBState := { users := [1, 2], skills := [], match_rows := [] }

/-- A concrete operation sequence: both users add their skills, the matcher
fires repeatedly. -/
def ops3 : List Op :=
  [Op.addSkill 1 "Guitar" "want" "" "", Op.addSkill 2 "guitar" "offer" "" "",
   Op.runMatcher 2, Op.runMatcher 1, Op.addSkill 2 "guitar" "offer" "" ""]

/-! ### The claims -/

/-- Claim C1: every created MatchRecord's `match_percentage` equals
`round(100 * matchScore / totalPossible, 1)`, where `matchScore` counts every
case-insensitively equal (myWant, theirOffer) pair plus every equal
(myOffer, theirWant) pair — a many-to-many count including duplicates
(`pairCountCI`) — and `totalPossible` is the number of the triggering user's
wanted-skill entries plus offered-skill entries. -/
theorem C1_match_percentage_formula (s : DBState) (uid : Nat) (m : Match)
    (hm : m ∈ (find_matches_for_user s uid).match_rows) (hnew : m ∉ s.match_rows) :
    m.match_percentage
      = round1 (100 * ((pairCountCI (skillsFor s uid "want") (skillsFor s m.user2_id "offer")
            + pairCountCI (skillsFor s uid "offer") (skillsFor s m.user2_id "want") : Nat) : ℚ)
          / (((skillsFor s uid "want").length + (skillsFor s uid "offer").length : Nat) : ℚ)) := by
  rcases new_record_spec hm hnew with ⟨o, -, -, hrec, -, -⟩
  subst hrec
  rw [recordFor_user2, recordFor_pct, scoreFor_match_score, scoreFor_total_possible]
  congr 1
  push_cast
  ring

/-- Witness for C1 on the concrete Guitar scenario, user 2 triggering. -/
theorem C1_match_percentage_formula_witness :
    mGuitar.match_percentage
      = round1 (100 * ((pairCountCI (skillsFor sGuitar 2 "want")
              (skillsFor sGuitar mGuitar.user2_id "offer")
            + pairCountCI (skillsFor sGuitar 2 "offer")
              (skillsFor sGuitar mGuitar.user2_id "want") : Nat) : ℚ)
          / (((skillsFor sGuitar 2 "want").length
              + (skillsFor sGuitar 2 "offer").length : Nat) : ℚ)) :=
  C1_match_percentage_formula sGuitar 2 mGuitar (List.Mem.head _) (by simp [sGuitar])

/-- Claim C2 (counterexample): in `sAsym` the record created for the pair
{1, 2} when user 1 triggers carries percentage `round1 (1/2 * 100) = 50`,
while the record created for the same pair when user 2 triggers carries
`round1 (1/1 * 100) = 100`: the stored compatibility score is not symmetric
in the triggering user. -/
theorem C2_symmetry_counterexample :
    (matchesFor (find_matches_for_user sAsym 1).match_rows 1 2).map Match.match_percentage
      = [round1 (((1 : Nat) : ℚ) / ((2 : Nat) : ℚ) * 100)]
    ∧ (matchesFor (find_matches_for_user sAsym 2).match_rows 1 2).map Match.match_percentage
      = [round1 (((1 : Nat) : ℚ) / ((1 : Nat) : ℚ) * 100)]
    ∧ round1 (((1 : Nat) : ℚ) / ((2 : Nat) : ℚ) * 100)
        ≠ round1 (((1 : Nat) : ℚ) / ((1 : Nat) : ℚ) * 100) := by
  refine ⟨?_, ?_, ?_⟩
  · have h1 : matchesFor (find_matches_for_user sAsym 1).match_rows 1 2
        = [recordFor sAsym 1 (skillsFor sAsym 1 "offer") (skillsFor sAsym 1 "want") 2] := rfl
    rw [h1, List.map_cons, List.map_nil, recordFor_pct]
    have hs : (scoreFor (skillsFor sAsym 1 "want") (skillsFor sAsym 1 "offer")
        (skillsFor sAsym 2 "offer") (skillsFor sAsym 2 "want")).match_score = 1 := by decide
    have ht : (scoreFor (skillsFor sAsym 1 "want") (skillsFor sAsym 1 "offer")
        (skillsFor sAsym 2 "offer") (skillsFor sAsym 2 "want")).total_possible = 2 := by decide
    rw [hs, ht]
  · have h2 : matchesFor (find_matches_for_user sAsym 2).match_rows 1 2
        = [recordFor sAsym 2 (skillsFor sAsym 2 "offer") (skillsFor sAsym 2 "want") 1] := rfl
    rw [h2, List.map_cons, List.map_nil, recordFor_pct]
    have hs : (scoreFor (skillsFor sAsym 2 "want") (skillsFor sAsym 2 "offer")
        (skillsFor sAsym 1 "offer") (skillsFor sAsym 1 "want")).match_score = 1 := by decide
    have ht : (scoreFor (skillsFor sAsym 2 "want") (skillsFor sAsym 2 "offer")
        (skillsFor sAsym 1 "offer") (skillsFor sAsym 1 "want")).total_possible = 1 := by decide
    rw [hs, ht]
  · have e1 : round1 (((1 : Nat) : ℚ) / ((2 : Nat) : ℚ) * 100) = 50 := by
      rw [@round1_eq_intCast_div _ 500 (by push_cast; norm_num)]
      norm_num
    have e2 : round1 (((1 : Nat) : ℚ) / ((1 : Nat) : ℚ) * 100) = 100 := by
      rw [@round1_eq_intCast_div _ 1000 (by push_cast; norm_num)]
      norm_num
    rw [e1, e2]
    norm_num

/-- Claim C2 (amended): the raw `matchScore` is symmetric — the score computed
for candidate B when A triggers equals the score computed for candidate A when
B triggers — but the stored percentage divides by the triggering user's own
list sizes and is therefore not symmetric. -/
theorem C2_match_score_symmetric (uw uo ow oo : List Skill) :
    (scoreFor uw uo oo ow).match_score = (scoreFor ow oo uo uw).match_score := by
  rw [scoreFor_match_score, scoreFor_match_score,
    pairCountCI_comm uw oo, pairCountCI_comm uo ow]
  omega

/-- Claim C3: starting from any state whose match store holds at most one row
per unordered pair of user identities (in particular the empty store), every
sequence of skill additions and matcher invocations preserves the invariant:
at most one MatchRecord per unordered pair. -/
theorem C3_pair_uniqueness (s : DBState) (ops : List Op) (h : pairUnique s.match_rows) :
    pairUnique (runOps s ops).match_rows :=
  pairUnique_runOps s ops h

/-- Witness for C3 on a concrete operation sequence from the empty store. -/
theorem C3_pair_uniqueness_witness :
    (matchesFor (runOps sEmpty ops3).match_rows 1 2).length ≤ 1 :=
  C3_pair_uniqueness sEmpty ops3 (fun a b => by simp [matchesFor, sEmpty]) 1 2

/-- Claim C4: for a pair of distinct users with at least one case-insensitive
(want, offer) overlap in either direction and no pre-existing record for the
pair, one matcher invocation for the first user creates exactly one record for
the pair, and no later operation — in particular no re-invocation of the
matcher for either user — updates or duplicates it. -/
theorem C4_single_creation_idempotent (s : DBState) (a b : Nat)
    (ha : a ∈ s.users) (hb : b ∈ s.users) (hab : a ≠ b)
    (hov : (∃ w ∈ skillsFor s a "want", ∃ o ∈ skillsFor s b "offer",
              lowEq w.skill_name o.skill_name = true)
         ∨ (∃ w ∈ skillsFor s b "want", ∃ o ∈ skillsFor s a "offer",
              lowEq o.skill_name w.skill_name = true))
    (hpre : matchesFor s.match_rows a b = []) :
    (matchesFor (find_matches_for_user s a).match_rows a b).length = 1
    ∧ ∀ ops : List Op,
        matchesFor (runOps (find_matches_for_user s a) ops).match_rows a b
          = matchesFor (find_matches_for_user s a).match_rows a b := by
  have hscore : 0 < (scoreFor (skillsFor s a "want") (skillsFor s a "offer")
      (skillsFor s b "offer") (skillsFor s b "want")).match_score := by
    rw [scoreFor_match_score]
    rcases hov with ⟨w, hw, o, ho, h⟩ | ⟨w, hw, o, ho, h⟩
    · have := pairCountCI_pos hw ho h
      omega
    · have := pairCountCI_pos ho hw h
      omega
  have htot : 0 < (scoreFor (skillsFor s a "want") (skillsFor s a "offer")
      (skillsFor s b "offer") (skillsFor s b "want")).total_possible := by
    rw [scoreFor_total_possible]
    rw [scoreFor_match_score] at hscore
    by_cases h1 : 0 < pairCountCI (skillsFor s a "want") (skillsFor s b "offer")
    · have := length_pos_of_pairCountCI_pos h1
      omega
    · have h2 : 0 < pairCountCI (skillsFor s a "offer") (skillsFor s b "want") := by omega
      have := length_pos_of_pairCountCI_pos h2
      omega
  have hlen : (matchesFor (find_matches_for_user s a).match_rows a b).length = 1 := by
    rw [find_matches_rows_of_mem ha]
    have hmemb : b ∈ s.users.filter (fun u => u != a) :=
      List.mem_filter.mpr ⟨hb, bne_iff_ne.mpr (Ne.symm hab)⟩
    have hge := one_le_matchesFor_foldl s a (skillsFor s a "offer") (skillsFor s a "want")
        (s.users.filter (fun u => u != a)) s.match_rows hmemb hscore htot
    have hle := matchesFor_foldl_le s a (skillsFor s a "offer") (skillsFor s a "want")
        (s.users.filter (fun u => u != a)) s.match_rows a b (by rw [hpre]; simp)
    omega
  refine ⟨hlen, ?_⟩
  intro ops
  apply matchesFor_runOps_frozen
  intro hc
  rw [hc] at hlen
  simp at hlen

/-- Witness for C4 on the Guitar scenario, user 2 triggering against user 1. -/
theorem C4_single_creation_idempotent_witness :
    (matchesFor (find_matches_for_user sGuitar 2).match_rows 2 1).length = 1 :=
  (C4_single_creation_idempotent sGuitar 2 1 (by decide) (by decide) (by decide)
    (Or.inr (by decide)) rfl).1

/-- Claim C5 (counterexample): in `sDup` — user 1 wants "x", user 2 offers
two identically named "x" entries — the matcher run for user 1 creates a
record with `match_percentage = 200`, outside the claimed interval
`[0, 100]`. -/
theorem C5_percentage_counterexample :
    ¬ ∀ m ∈ (find_matches_for_user sDup 1).match_rows,
        0 ≤ m.match_percentage ∧ m.match_percentage ≤ 100 := by
  intro h
  have hmem : recordFor sDup 1 (skillsFor sDup 1 "offer") (skillsFor sDup 1 "want") 2
      ∈ (find_matches_for_user sDup 1).match_rows := List.Mem.head _
  have h2 := (h _ hmem).2
  rw [recordFor_pct] at h2
  have hs : (scoreFor (skillsFor sDup 1 "want") (skillsFor sDup 1 "offer")
      (skillsFor sDup 2 "offer") (skillsFor sDup 2 "want")).match_score = 2 := by decide
  have ht : (scoreFor (skillsFor sDup 1 "want") (skillsFor sDup 1 "offer")
      (skillsFor sDup 2 "offer") (skillsFor sDup 2 "want")).total_possible = 1 := by decide
  rw [hs, ht] at h2
  have he : round1 (((2 : Nat) : ℚ) / ((1 : Nat) : ℚ) * 100) = 200 := by
    rw [@round1_eq_intCast_div _ 2000 (by push_cast; norm_num)]
    norm_num
  rw [he] at h2
  norm_num at h2

/-- Claim C5 (amended): every created MatchRecord's `match_percentage` is at
least 0; and it is at most 100 provided the candidate's offered list and
wanted list each contain no case-insensitively duplicated skill names.  (With
duplicate candidate entries the many-to-many count can exceed 100, as the
spec's §4.1 step 6 itself notes.) -/
theorem C5_percentage_bounds (s : DBState) (uid : Nat) (m : Match)
    (hm : m ∈ (find_matches_for_user s uid).match_rows) (hnew : m ∉ s.match_rows) :
    0 ≤ m.match_percentage
    ∧ ((namesNodupCI (skillsFor s m.user2_id "offer")
        ∧ namesNodupCI (skillsFor s m.user2_id "want")) → m.match_percentage ≤ 100) := by
  rcases new_record_spec hm hnew with ⟨o, -, -, hrec, -, ht⟩
  subst hrec
  rw [recordFor_user2, recordFor_pct]
  constructor
  · apply round1_nonneg
    positivity
  · rintro ⟨hno, hnw⟩
    apply round1_le_100
    rw [scoreFor_match_score, scoreFor_total_possible]
    rw [scoreFor_total_possible] at ht
    have hle : pairCountCI (skillsFor s uid "want") (skillsFor s o "offer")
        + pairCountCI (skillsFor s uid "offer") (skillsFor s o "want")
        ≤ (skillsFor s uid "want").length + (skillsFor s uid "offer").length := by
      have h1 := @pairCountCI_le_length (skillsFor s uid "want") (skillsFor s o "offer") hno
      have h2 := @pairCountCI_le_length (skillsFor s uid "offer") (skillsFor s o "want") hnw
      omega
    have hd : (0 : ℚ) < (((skillsFor s uid "want").length
        + (skillsFor s uid "offer").length : Nat) : ℚ) := by
      exact_mod_cast ht
    have hx : ((pairCountCI (skillsFor s uid "want") (skillsFor s o "offer")
        + pairCountCI (skillsFor s uid "offer") (skillsFor s o "want") : Nat) : ℚ)
        / (((skillsFor s uid "want").length + (skillsFor s uid "offer").length : Nat) : ℚ)
        ≤ 1 := by
      rw [div_le_one hd]
      exact_mod_cast hle
    calc ((pairCountCI (skillsFor s uid "want") (skillsFor s o "offer")
          + pairCountCI (skillsFor s uid "offer") (skillsFor s o "want") : Nat) : ℚ)
          / (((skillsFor s uid "want").length + (skillsFor s uid "offer").length : Nat) : ℚ)
          * 100
        ≤ 1 * 100 := by
          exact mul_le_mul_of_nonneg_right hx (by norm_num)
      _ = 100 := by norm_num

/-- Witness for C5 (amended) on the Guitar scenario: the created record's
percentage lies in `[0, 100]`. -/
theorem C5_percentage_bounds_witness :
    0 ≤ mGuitar.match_percentage ∧ mGuitar.match_percentage ≤ 100 := by
  have h := C5_percentage_bounds sGuitar 2 mGuitar (List.Mem.head _) (by simp [sGuitar])
  exact ⟨h.1, h.2 ⟨by decide, by decide⟩⟩

/-- Claim C6: a created record's `is_double_swap` is true if and only if at
least one of the triggering user's offered skills equals, case-insensitively,
one of the candidate's wanted skills; matches of the triggering user's wants
against the candidate's offers never set the flag. -/
theorem C6_double_swap_iff (s : DBState) (uid : Nat) (m : Match)
    (hm : m ∈ (find_matches_for_user s uid).match_rows) (hnew : m ∉ s.match_rows) :
    m.is_double_swap = true
      ↔ ∃ o ∈ skillsFor s uid "offer", ∃ w ∈ skillsFor s m.user2_id "want",
          lowEq o.skill_name w.skill_name = true := by
  rcases new_record_spec hm hnew with ⟨o2, -, -, hrec, -, -⟩
  subst hrec
  rw [recordFor_user2, recordFor_double, scoreFor_is_double]
  rw [List.any_eq_true]
  constructor
  · rintro ⟨o, ho, h⟩
    exact ⟨o, ho, List.any_eq_true.mp h⟩
  · rintro ⟨o, ho, w, hw, h⟩
    exact ⟨o, ho, List.any_eq_true.mpr ⟨w, hw, h⟩⟩

/-- Witness for C6 on the Guitar scenario: the created record is flagged as a
double swap because trigger 2's offer "guitar" equals candidate 1's want
"Guitar". -/
theorem C6_double_swap_iff_witness :
    mGuitar.is_double_swap = true
      ↔ ∃ o ∈ skillsFor sGuitar 2 "offer", ∃ w ∈ skillsFor sGuitar mGuitar.user2_id "want",
          lowEq o.skill_name w.skill_name = true :=
  C6_double_swap_iff sGuitar 2 mGuitar (List.Mem.head _) (by simp [sGuitar])

/-- Claim C7: a candidate whose computed `matchScore` is 0 or whose
`totalPossible` is 0 — in particular one with no case-insensitive reciprocal
overlap — is skipped silently: the match rows stored for that pair are left
exactly as they were (no record created, none updated). -/
theorem C7_zero_skip (s : DBState) (uid o : Nat)
    (h : (scoreFor (skillsFor s uid "want") (skillsFor s uid "offer")
            (skillsFor s o "offer") (skillsFor s o "want")).match_score = 0
      ∨ (scoreFor (skillsFor s uid "want") (skillsFor s uid "offer")
            (skillsFor s o "offer") (skillsFor s o "want")).total_possible = 0) :
    matchesFor (find_matches_for_user s uid).match_rows uid o
      = matchesFor s.match_rows uid o := by
  by_cases hu : uid ∈ s.users
  · rw [find_matches_rows_of_mem hu]
    rcases foldl_processCandidate_decomp s uid (skillsFor s uid "offer")
        (skillsFor s uid "want") (s.users.filter (fun u => u != uid))
        s.match_rows with ⟨new, heq, hprop⟩
    rw [heq, matchesFor_append]
    have hnil : matchesFor new uid o = [] := by
      rw [matchesFor, List.filter_eq_nil_iff]
      intro r hr
      rcases hprop r hr with ⟨o2, ho2, hrec, hsc, hto⟩
      rcases List.mem_filter.mp ho2 with ⟨-, hone⟩
      have hne2 : o2 ≠ uid := by simpa using hone
      intro hp
      subst hrec
      rcases pairMatch_recordFor.mp hp with ⟨-, rfl⟩ | ⟨-, h2⟩
      · rcases h with h | h
        · omega
        · omega
      · exact hne2 h2
    rw [hnil, List.append_nil]
  · rw [find_matches_eq_of_not_mem hu]

/-- Witness for C7: in the skill-less state `sEmpty`, invoking the matcher for
user 1 leaves the (empty) rows for the pair {1, 2} unchanged. -/
theorem C7_zero_skip_witness :
    matchesFor (find_matches_for_user sEmpty 1).match_rows 1 2
      = matchesFor sEmpty.match_rows 1 2 :=
  C7_zero_skip sEmpty 1 2 (Or.inl (by decide))

/-- Claim C8: when the triggering user identity does not resolve, the matcher
is a silent no-op — the whole state, and in particular the MatchRecord store,
is returned unchanged (nothing inserted, updated or deleted). -/
theorem C8_missing_user_noop (s : DBState) (uid : Nat) (h : uid ∉ s.users) :
    find_matches_for_user s uid = s :=
  find_matches_eq_of_not_mem h

/-- Witness for C8: user 5 does not exist in `sGuitar`. -/
theorem C8_missing_user_noop_witness :
    find_matches_for_user sGuitar 5 = sGuitar :=
  C8_missing_user_noop sGuitar 5 (by decide)

/-- Claim C9 (counterexample): in `sEmpty`, user 1 has empty wanted and
offered lists and a candidate exists, yet every candidate IS skipped with
`totalPossible == 0` and no record is created — contradicting the claim that
this situation never occurs. -/
theorem C9_empty_user_counterexample :
    skillsFor sEmpty 1 "want" = [] ∧ skillsFor sEmpty 1 "offer" = []
    ∧ sEmpty.users.filter (fun u => u != 1) = [2]
    ∧ (∀ o ∈ sEmpty.users.filter (fun u => u != 1),
        (scoreFor (skillsFor sEmpty 1 "want") (skillsFor sEmpty 1 "offer")
          (skillsFor sEmpty o "offer") (skillsFor sEmpty o "want")).total_possible = 0)
    ∧ (find_matches_for_user sEmpty 1).match_rows = [] := by
  refine ⟨rfl, rfl, rfl, ?_, rfl⟩
  decide

/-- Claim C9 (amended): a triggering user whose wanted-list and offered-list
are both empty has `totalPossible = 0` for every candidate, so every candidate
is skipped by the `totalPossible == 0` rule and the match store is unchanged.
(Through the add-skill trigger this cannot arise, since the matcher only fires
after an `offer` skill row has been inserted.) -/
theorem C9_empty_user_all_skipped (s : DBState) (uid : Nat)
    (hw : skillsFor s uid "want" = []) (ho : skillsFor s uid "offer" = []) :
    (∀ o : Nat, (scoreFor (skillsFor s uid "want") (skillsFor s uid "offer")
        (skillsFor s o "offer") (skillsFor s o "want")).total_possible = 0)
    ∧ (find_matches_for_user s uid).match_rows = s.match_rows := by
  have htot : ∀ o : Nat, (scoreFor (skillsFor s uid "want") (skillsFor s uid "offer")
      (skillsFor s o "offer") (skillsFor s o "want")).total_possible = 0 := by
    intro o
    rw [scoreFor_total_possible, hw, ho]
    rfl
  refine ⟨htot, ?_⟩
  by_cases hu : uid ∈ s.users
  · rw [find_matches_rows_of_mem hu]
    rcases foldl_processCandidate_decomp s uid (skillsFor s uid "offer")
        (skillsFor s uid "want") (s.users.filter (fun u => u != uid))
        s.match_rows with ⟨new, heq, hprop⟩
    have hnil : new = [] := by
      rw [List.eq_nil_iff_forall_not_mem]
      intro r hr
      rcases hprop r hr with ⟨o, -, -, -, hto⟩
      rw [htot o] at hto
      omega
    rw [heq, hnil, List.append_nil]
  · rw [find_matches_eq_of_not_mem hu]

/-- Witness for C9 (amended) on `sEmpty`. -/
theorem C9_empty_user_all_skipped_witness :
    (find_matches_for_user sEmpty 1).match_rows = sEmpty.match_rows :=
  (C9_empty_user_all_skipped sEmpty 1 rfl rfl).2

/-- Claim C10: every record the matcher creates stores the triggering user as
`user1_id` and a member of the candidate pool — which excludes the trigger —
as `user2_id`; consequently, starting from a store with no self-pairing row,
no reachable store ever contains a row with `user1_id = user2_id`. -/
theorem C10_user_order_no_self (s : DBState) (uid : Nat) :
    (∀ m, m ∈ (find_matches_for_user s uid).match_rows → m ∉ s.match_rows →
        m.user1_id = uid ∧ m.user2_id ∈ s.users ∧ m.user2_id ≠ uid)
    ∧ (∀ ops : List Op, (∀ m ∈ s.match_rows, m.user1_id ≠ m.user2_id) →
        ∀ m ∈ (runOps s ops).match_rows, m.user1_id ≠ m.user2_id) := by
  constructor
  · intro m hm hnew
    rcases new_record_spec hm hnew with ⟨o, ho, hne, hrec, -, -⟩
    subst hrec
    rw [recordFor_user1, recordFor_user2]
    exact ⟨rfl, ho, hne⟩
  · intro ops h
    exact user_ne_runOps ops s h

/-- Witness for C10 on the Guitar scenario, user 2 triggering. -/
theorem C10_user_order_no_self_witness :
    mGuitar.user1_id = 2 ∧ mGuitar.user2_id ∈ sGuitar.users ∧ mGuitar.user2_id ≠ 2 :=
  (C10_user_order_no_self sGuitar 2).1 mGuitar (List.Mem.head _) (by simp [sGuitar])

end SkillSwap
